import Mathlib

/-!
Verification development for the 3×3 blindfold trainer bot (`bot.py`).

The game logic of the bot is shallowly embedded: module-level randomness is
made explicit by passing draws (an index for `random.choice`, a rational in
`[0,1)` for `random.random()`, a natural number for `random.randint`), and
the mutable `ctx.user_data` dictionary becomes an explicit `Session` value.
Handlers that can raise a `KeyError`/`ZeroDivisionError` in Python return
`Option` (`none` models the exception).
-/

namespace BlindTrainer

/-- `CORNER_LETTERS = list("ABCDEFGH")` from `bot.py`. -/
def CORNER_LETTERS : List Char := "ABCDEFGH".toList

/-- `EDGE_LETTERS = list("IJKLMNOPQRST")` from `bot.py`. -/
def EDGE_LETTERS : List Char := "IJKLMNOPQRST".toList

/-- `DUP_CHANCE = 0.15` from `bot.py`; the float is modelled as the rational
`15/100` (built with `mkRat` so that comparisons evaluate). -/
def DUP_CHANCE : ℚ := mkRat 15 100

/-- One iteration's worth of randomness for `gen_memo_set`:
`idx` feeds `random.choice(letters)` (reduced mod the alphabet size) and
`dup` is the uniform draw of `random.random()` in `[0,1)`. -/
structure Draw where
  idx : Nat
  dup : ℚ
deriving DecidableEq, Repr

/-- `rint(a, b) = random.randint(a, b)`: with an explicit draw, any natural
number, mapped into the inclusive range `[a, b]`. -/
def rint (a b draw : Nat) : Nat := a + draw % (b + 1 - a)

/-- `next_len(n, maxn, minrnd)` from `bot.py`:
`n + 1 if n < maxn else rint(minrnd, maxn)`. -/
def next_len (n maxn minrnd draw : Nat) : Nat :=
  if n < maxn then n + 1 else rint minrnd maxn draw

/-- One iteration of the accept/reject loop of `gen_memo_set`:
draw `L = random.choice(letters)`; skip it if it equals the first or the
last accepted letter (`memo` non-empty); skip it if it is already in `memo`
and `random.random() > DUP_CHANCE`; otherwise append it. -/
def genStep (letters : List Char) (memo : List Char) (d : Draw) : List Char :=
  let L := letters.getD (d.idx % letters.length) ' '
  if memo ≠ [] ∧ (L = memo.headD ' ' ∨ L = memo.getLastD ' ') then memo
  else if L ∈ memo ∧ d.dup > DUP_CHANCE then memo
  else memo ++ [L]

/-- `gen_memo_set(letters, length)` from `bot.py`, run on an explicit finite
list of draws; `none` means the draws were exhausted before `length` letters
were accepted (the `while` loop would still be running). -/
def gen_memo_set (letters : List Char) (length : Nat) :
    List Draw → List Char → Option (List Char)
  | [], memo => if memo.length < length then none else some memo
  | d :: rest, memo =>
    if memo.length < length then
      gen_memo_set letters length rest (genStep letters memo d)
    else some memo

/-- An infinite stream of draws terminates the generator loop when some
finite prefix of it already yields `length` accepted letters. -/
def genTerminates (letters : List Char) (length : Nat) (f : Nat → Draw) : Prop :=
  ∃ k s, gen_memo_set letters length ((List.range k).map f) [] = some s

/-- The draw cells of `format_feedback`: for each `(c, g)` pair of
`zip(correct, guess)` build the rendered correct-row cell, the guess-row
cell, and count the hit. Mirrors the loop body of `format_feedback`. -/
def fbCells : List (Char × Char) → List String × List String × Nat
  | [] => ([], [], 0)
  | (c, g) :: rest =>
    let r := fbCells rest
    if c = g then
      (("`" ++ (Char.toLower c).toString ++ "`") :: r.1,
       ("`" ++ (Char.toLower g).toString ++ "`") :: r.2.1,
       r.2.2 + 1)
    else
      (("*" ++ c.toString ++ "*") :: r.1,
       ("*" ++ (Char.toUpper g).toString ++ "*") :: r.2.1,
       r.2.2)

/-- `format_feedback(correct, guess)` from `bot.py`: the rendered Markdown
feedback and the number of positionwise hits. (In the source a guess cell
is a single character, so the `g or '·'` fallback never replaces it.) -/
def format_feedback (correct guess : List Char) : String × Nat :=
  let r := fbCells (correct.zip guess)
  ("*Correct*: " ++ String.intercalate " " r.1 ++ "\n" ++
   "*Yours  *: " ++ String.intercalate " " r.2.1 ++ "\n" ++
   "*Score  *: " ++ toString r.2.2 ++ ("/" ++ toString correct.length),
   r.2.2)

/-- Specification-side count: the number of indices `i < n` at which the two
lists agree. -/
def countAgree (c g : List Char) (n : Nat) : Nat :=
  ∑ i ∈ Finset.range n, if c.getD i ' ' = g.getD i ' ' then 1 else 0

/-- Python `str.strip()` on the character list of a message: drop leading
and trailing whitespace. -/
def pyStrip (l : List Char) : List Char :=
  ((l.dropWhile Char.isWhitespace).reverse.dropWhile Char.isWhitespace).reverse

/-- Python `str.upper()` on a character list (the bot's alphabets are
ASCII). -/
def pyUpper (l : List Char) : List Char := l.map Char.toUpper

/-- `update.message.text.strip().upper()` as a character list: the guess
string the two recall handlers compare and score. -/
def pyGuess (text : String) : List Char := pyUpper (pyStrip text.data)

/-- Decimal value of a digit string. -/
def digitsVal (l : List Char) : Nat :=
  l.foldl (fun a c => a * 10 + (c.toNat - 48)) 0

/-- Parse a non-empty all-digit character list. -/
def parseDigits (l : List Char) : Option Nat :=
  if l = [] then none
  else if l.all Char.isDigit then some (digitsVal l) else none

/-- Model of `int(text.strip())` in `handle_math` for ASCII decimal inputs:
trim whitespace, optional sign, then digits; `none` models `ValueError`. -/
def pyInt (text : String) : Option Int :=
  match pyStrip text.data with
  | '-' :: rest => (parseDigits rest).map (fun n => -(n : Int))
  | '+' :: rest => (parseDigits rest).map (fun n => (n : Int))
  | l => (parseDigits l).map (fun n => (n : Int))

/-- The per-chat `ctx.user_data` dictionary of `bot.py` as a record.
`level`, the two lengths and the three lifetime counters are the fields
`start` initialises; the round-transient entries (`corners`, `edges`,
`math_ans`, `last_edge_hits`) may be absent, so they are `Option`s. -/
structure Session where
  level : Nat
  corner_len : Nat
  edge_len : Nat
  msg_id : Option Nat
  correct_letters : Nat
  attempted_letters : Nat
  puzzles_solved : Nat
  corners : Option (List Char)
  edges : Option (List Char)
  math_ans : Option Int
  last_edge_hits : Option Nat
deriving DecidableEq, Repr

/-- The conversation states of `bot.py` (`range(4)`) plus
`ConversationHandler.END`. -/
inductive ConvState
  | SHOW_MEMO
  | WAIT_MATH
  | WAIT_RECALL_EDGES
  | WAIT_RECALL_CORNERS
  | END
deriving DecidableEq, Repr

/-- The welcome text sent by `start`. -/
def welcome_text : String :=
  "👋 *Welcome to the 3×3 blind trainer*\n\n" ++
  "Press 🧠 to generate edge & corner strings,\n" ++
  "🛑 to exit, or 📊 for stats."

/-- The goodbye text sent by `exit_handler`. -/
def goodbye_text : String := "👋 *Goodbye!* Come back anytime with 🧠."

/-- `start` from `bot.py`: `ctx.user_data.update(level=1, corner_len=3,
edge_len=5, msg_id=None, correct_letters=0, attempted_letters=0,
puzzles_solved=0)`, send the welcome screen, return `END`. Dictionary keys
not named in the `update` call keep their values. -/
def start (s : Session) : Session × ConvState × String :=
  ({ s with
      level := 1, corner_len := 3, edge_len := 5, msg_id := none,
      correct_letters := 0, attempted_letters := 0, puzzles_solved := 0 },
   ConvState.END, welcome_text)

/-- `exit_handler` from `bot.py`: send the goodbye text and return `END`;
no `user_data` entry is written. -/
def exit_handler (s : Session) : Session × ConvState × String :=
  (s, ConvState.END, goodbye_text)

/-- `handle_math` from `bot.py`: parse the message as an integer; on
failure re-prompt and stay in `WAIT_MATH`; on success compare with
`math_ans` (a missing `math_ans` key is a `KeyError`, i.e. `none`) and move
on to the edges recall prompt. -/
def handle_math (text : String) (s : Session) :
    Option (Session × ConvState × String) :=
  match pyInt text with
  | none => some (s, ConvState.WAIT_MATH, "❌ Send a valid number.")
  | some val =>
    match s.math_ans with
    | none => none
    | some ans =>
      let verdict :=
        if val = ans then "✅ Correct!"
        else "❌ Incorrect (was " ++ toString ans ++ ")"
      some (s, ConvState.WAIT_RECALL_EDGES,
            verdict ++ "\n\nNow send the *edges* string.")

/-- `handle_edges` from `bot.py`: uppercase and trim the guess; on a length
mismatch re-prompt and stay in `WAIT_RECALL_EDGES`; otherwise score it, add
to the lifetime counters, record `last_edge_hits`, and ask for corners. -/
def handle_edges (text : String) (s : Session) :
    Option (Session × ConvState × String) :=
  match s.edges with
  | none => none
  | some edges =>
    let guess := pyGuess text
    if guess.length ≠ edges.length then
      some (s, ConvState.WAIT_RECALL_EDGES,
            "Need " ++ toString edges.length ++ " letters for edges.")
    else
      let fb := format_feedback edges guess
      some ({ s with
                correct_letters := s.correct_letters + fb.2,
                attempted_letters := s.attempted_letters + edges.length,
                last_edge_hits := some fb.2 },
            ConvState.WAIT_RECALL_CORNERS,
            fb.1 ++ "\n\nNow send the *corners* string.")

/-- `handle_corners` from `bot.py`: score the corners guess, update the
lifetime counters, increment `puzzles_solved` when both this guess and the
recorded `last_edge_hits` are perfect (`user_data.get("last_edge_hits", 0)`),
report accuracy (`//`), then bump `level` and both lengths via `next_len`.
`d1`, `d2` feed the two potential `random.randint` calls; `none` models a
`KeyError` (missing `corners`, or missing `edges` when the full-solve check
reaches it) or the `ZeroDivisionError` when `attempted_letters` is zero. -/
def handle_corners (d1 d2 : Nat) (text : String) (s : Session) :
    Option (Session × ConvState × String) :=
  match s.corners with
  | none => none
  | some corners =>
    let guess := pyGuess text
    if guess.length ≠ corners.length then
      some (s, ConvState.WAIT_RECALL_CORNERS,
            "Need " ++ toString corners.length ++ " letters for corners.")
    else
      let fb := format_feedback corners guess
      let s1 : Session :=
        { s with
            correct_letters := s.correct_letters + fb.2,
            attempted_letters := s.attempted_letters + corners.length }
      let afterSolve : Option Session :=
        if fb.2 = corners.length then
          match s.edges with
          | none => none
          | some edges =>
            if s.last_edge_hits.getD 0 = edges.length then
              some { s1 with puzzles_solved := s1.puzzles_solved + 1 }
            else some s1
        else some s1
      match afterSolve with
      | none => none
      | some s2 =>
        if s2.attempted_letters = 0 then none
        else
          let acc := s2.correct_letters * 100 / s2.attempted_letters
          some ({ s2 with
                    level := s2.level + 1,
                    corner_len := next_len s2.corner_len CORNER_LETTERS.length 3 d1,
                    edge_len := next_len s2.edge_len EDGE_LETTERS.length 5 d2 },
                ConvState.END,
                fb.1 ++ "\n\n🎯 *" ++ toString acc ++ "%* accuracy\n" ++
                "🎉 *" ++ toString s2.puzzles_solved ++ "* full solves\n\n" ++
                "Press 🧠 for next, 🛑 to quit, 📊 for stats.")

/-- A concrete mid-round session value, used as a test fixture: lifetime
counters are non-zero and all round-transient entries are present. -/
def sessionEx : Session :=
  { level := 7, corner_len := 6, edge_len := 9, msg_id := some 5,
    correct_letters := 40, attempted_letters := 50, puzzles_solved := 5,
    corners := some ('D' :: 'E' :: []), edges := some ('I' :: 'J' :: []),
    math_ans := some 4242, last_edge_hits := some 1 }

/-- A concrete session about to answer the corners recall: the recorded
edges score (4 of 5) is imperfect. -/
def solveSession : Session :=
  { level := 1, corner_len := 3, edge_len := 5, msg_id := none,
    correct_letters := 10, attempted_letters := 20, puzzles_solved := 2,
    corners := some ('A' :: 'B' :: 'C' :: []),
    edges := some ('I' :: 'J' :: 'K' :: 'L' :: 'M' :: []),
    math_ans := some 6912, last_edge_hits := some 4 }

/-- An adversarial infinite draw stream: every iteration draws the letter at
index 0 and a duplicate-draw of `1/2`. -/
def badStream : Nat → Draw := fun _ => ⟨0, mkRat 1 2⟩

/-- The corners handler run on `solveSession` with the perfect guess
`"abc"` (recorded edges score 4 of 5 is imperfect, so no full solve). -/
def cornersRoundResult : Session × ConvState × String :=
  (handle_corners 0 0 "abc" solveSession).getD (solveSession, ConvState.END, "")

/-! ### Theorems -/

/-- Sanity: the embedded `DUP_CHANCE` is the source's `0.15`. -/
theorem DUP_CHANCE_eq : DUP_CHANCE = 15 / 100 := by
  rw [DUP_CHANCE, Rat.mkRat_eq_div]; norm_num

theorem countAgree_cons (a b : Char) (c g : List Char) (n : Nat) :
    countAgree (a :: c) (b :: g) (n + 1) =
      countAgree c g n + (if a = b then 1 else 0) := by
  unfold countAgree
  rw [Finset.sum_range_succ']
  simp

theorem countAgree_le (c g : List Char) (n : Nat) : countAgree c g n ≤ n := by
  unfold countAgree
  calc (∑ i ∈ Finset.range n, if c.getD i ' ' = g.getD i ' ' then 1 else 0)
      ≤ ∑ _i ∈ Finset.range n, 1 := by
        apply Finset.sum_le_sum; intro i _; split <;> simp
    _ = n := by simp

theorem fbCells_hits (c : List Char) : ∀ g : List Char,
    (fbCells (c.zip g)).2.2 = countAgree c g (min c.length g.length) := by
  induction c with
  | nil => intro g; simp [fbCells, countAgree]
  | cons a c ih =>
    intro g
    cases g with
    | nil => simp [fbCells, countAgree]
    | cons b g =>
      have ihg := ih g
      simp only [List.zip_cons_cons, fbCells, List.length_cons,
        Nat.succ_min_succ, countAgree_cons]
      by_cases hab : a = b <;> simp [hab] <;> exact ihg

/-- C4: for every target and guess of equal length, the scorer's `hits` is
the number of positions at which the two agree, `0 ≤ hits ≤ length` holds,
and target `["A","B","C"]` against guess `["A","X","C"]` scores 2; the
scorer is a function of its two arguments alone. -/
theorem C4_theorem (correct guess : List Char) (h : guess.length = correct.length) :
    (format_feedback correct guess).2 = countAgree correct guess correct.length ∧
    (format_feedback correct guess).2 ≤ correct.length ∧
    (format_feedback ("ABC".toList) ("AXC".toList)).2 = 2 := by
  have hh : (format_feedback correct guess).2 =
      countAgree correct guess (min correct.length guess.length) :=
    fbCells_hits correct guess
  rw [h, min_self] at hh
  exact ⟨hh, hh ▸ countAgree_le correct guess correct.length, by decide⟩

/-- C4 witness: the scorer at the spec's concrete scenario. -/
theorem C4_witness :
    ("AXC".toList.length = "ABC".toList.length) ∧
    ((format_feedback "ABC".toList "AXC".toList).2 =
        countAgree "ABC".toList "AXC".toList ("ABC".toList.length) ∧
      (format_feedback "ABC".toList "AXC".toList).2 ≤ "ABC".toList.length ∧
      (format_feedback ("ABC".toList) ("AXC".toList)).2 = 2) :=
  ⟨by decide, C4_theorem "ABC".toList "AXC".toList (by decide)⟩

/-- C10: for a strictly shorter guess the scorer still returns a value:
positions are compared only up to the guess's length, `hits` is bounded by
the guess's length, and the rendered summary's denominator is the target's
length. -/
theorem C10_theorem (correct guess : List Char) (h : guess.length < correct.length) :
    (format_feedback correct guess).2 = countAgree correct guess guess.length ∧
    (format_feedback correct guess).2 ≤ guess.length ∧
    ∃ p, (format_feedback correct guess).1 =
      p ++ ("/" ++ toString correct.length) := by
  have hh : (format_feedback correct guess).2 =
      countAgree correct guess (min correct.length guess.length) :=
    fbCells_hits correct guess
  rw [min_eq_right h.le] at hh
  refine ⟨hh, hh ▸ countAgree_le correct guess guess.length, ?_⟩
  simp only [format_feedback]
  exact ⟨_, rfl⟩

/-- C10 witness: target `"ABC"` against the shorter guess `"AX"`. -/
theorem C10_witness :
    ("AX".toList.length < "ABC".toList.length) ∧
    ((format_feedback "ABC".toList "AX".toList).2 =
        countAgree "ABC".toList "AX".toList ("AX".toList.length) ∧
      (format_feedback "ABC".toList "AX".toList).2 ≤ "AX".toList.length ∧
      ∃ p, (format_feedback "ABC".toList "AX".toList).1 =
        p ++ ("/" ++ toString "ABC".toList.length)) :=
  ⟨by decide, C10_theorem "ABC".toList "AX".toList (by decide)⟩

/-- C8: with `min ≤ current ≤ max`, `next_len` is deterministically
`current + 1` below the cap, and lands in `[min, max]` for every draw at
the cap. -/
theorem C8_theorem (cur mn mx draw : Nat) (h1 : mn ≤ cur) (h2 : cur ≤ mx) :
    (cur < mx → next_len cur mx mn draw = cur + 1) ∧
    (cur = mx → mn ≤ next_len cur mx mn draw ∧ next_len cur mx mn draw ≤ mx) := by
  constructor
  · intro h; simp [next_len, h]
  · intro h
    subst h
    simp only [next_len, lt_irrefl, if_false, rint]
    have hpos : 0 < cur + 1 - mn := by omega
    have hmod := Nat.mod_lt draw hpos
    omega

/-- C8 witness: the corner progression bounds `3 ≤ 8 ≤ 8` at the cap. -/
theorem C8_witness :
    (3 ≤ 8 ∧ (8 : Nat) ≤ 8) ∧
    ((8 < 8 → next_len 8 8 3 11 = 8 + 1) ∧
      (8 = 8 → 3 ≤ next_len 8 8 3 11 ∧ next_len 8 8 3 11 ≤ 8)) :=
  ⟨⟨by decide, by decide⟩, C8_theorem 8 3 8 11 (by decide) (by decide)⟩

/-- C7 counterexample: a duplicate candidate (letter `B` against memo
`[A,B,C]`) drawn with `random.random()` exactly equal to `DUP_CHANCE` is
accepted by the code (`>` is strict), while the claim says a draw at the
threshold is rejected. -/
theorem C7_counterexample :
    genStep CORNER_LETTERS ['A', 'B', 'C'] ⟨1, DUP_CHANCE⟩ =
      ['A', 'B', 'C', 'B'] ∧
    ¬ DUP_CHANCE > DUP_CHANCE := by decide

/-- C7 amended: a duplicate candidate that clears the adjacency guard is
rejected exactly when the fresh draw falls strictly above `DUP_CHANCE` and
accepted (appended) exactly when the draw is at or below it — in
particular a draw equal to `DUP_CHANCE` is accepted. -/
theorem C7_amended (letters memo : List Char) (d : Draw)
    (hmem : letters.getD (d.idx % letters.length) ' ' ∈ memo)
    (hh : letters.getD (d.idx % letters.length) ' ' ≠ memo.headD ' ')
    (hl : letters.getD (d.idx % letters.length) ' ' ≠ memo.getLastD ' ') :
    (d.dup > DUP_CHANCE → genStep letters memo d = memo) ∧
    (d.dup ≤ DUP_CHANCE →
      genStep letters memo d =
        memo ++ [letters.getD (d.idx % letters.length) ' ']) := by
  have hc1 : ¬ (memo ≠ [] ∧
      (letters.getD (d.idx % letters.length) ' ' = memo.headD ' ' ∨
        letters.getD (d.idx % letters.length) ' ' = memo.getLastD ' ')) := by
    rintro ⟨-, h | h⟩
    · exact hh h
    · exact hl h
  constructor
  · intro hgt
    have hc2 : letters.getD (d.idx % letters.length) ' ' ∈ memo ∧
        d.dup > DUP_CHANCE := ⟨hmem, hgt⟩
    simp only [genStep]
    rw [if_neg hc1, if_pos hc2]
  · intro hle
    have hc2 : ¬ (letters.getD (d.idx % letters.length) ' ' ∈ memo ∧
        d.dup > DUP_CHANCE) := fun h => absurd h.2 (not_lt.mpr hle)
    simp only [genStep]
    rw [if_neg hc1, if_neg hc2]

/-- C7 witness: letter `B` against memo `[A,B,C]` with a boundary draw. -/
theorem C7_witness :
    (CORNER_LETTERS.getD (1 % CORNER_LETTERS.length) ' ' ∈ ['A', 'B', 'C'] ∧
      CORNER_LETTERS.getD (1 % CORNER_LETTERS.length) ' ' ≠
        (['A', 'B', 'C'] : List Char).headD ' ' ∧
      CORNER_LETTERS.getD (1 % CORNER_LETTERS.length) ' ' ≠
        (['A', 'B', 'C'] : List Char).getLastD ' ') ∧
    (((⟨1, DUP_CHANCE⟩ : Draw).dup > DUP_CHANCE →
        genStep CORNER_LETTERS ['A', 'B', 'C'] ⟨1, DUP_CHANCE⟩ = ['A', 'B', 'C']) ∧
      ((⟨1, DUP_CHANCE⟩ : Draw).dup ≤ DUP_CHANCE →
        genStep CORNER_LETTERS ['A', 'B', 'C'] ⟨1, DUP_CHANCE⟩ =
          ['A', 'B', 'C'] ++
            [CORNER_LETTERS.getD (1 % CORNER_LETTERS.length) ' '])) :=
  ⟨⟨by decide, by decide, by decide⟩,
    C7_amended CORNER_LETTERS ['A', 'B', 'C'] ⟨1, DUP_CHANCE⟩
      (by decide) (by decide) (by decide)⟩

/-- C1 counterexample: handling `/start` on a session with lifetime
counters `40/50/5` zeroes all three, and leaves the stale round-transient
entries (`math_ans`, `corners`) in place instead of clearing them. -/
theorem C1_counterexample :
    (start sessionEx).1.puzzles_solved ≠ sessionEx.puzzles_solved ∧
    (start sessionEx).1.correct_letters ≠ sessionEx.correct_letters ∧
    (start sessionEx).1.attempted_letters ≠ sessionEx.attempted_letters ∧
    (start sessionEx).1.math_ans ≠ none ∧
    (start sessionEx).1.corners ≠ none := by decide

/-- C1 amended: `start` acts as a full reset — it re-initialises `level`
and the two group lengths, zeroes the three lifetime counters, leaves the
stale round-transient entries untouched (they are only overwritten when the
next round begins), emits the welcome text and returns `END`. -/
theorem C1_amended (s : Session) :
    (start s).1.correct_letters = 0 ∧
    (start s).1.attempted_letters = 0 ∧
    (start s).1.puzzles_solved = 0 ∧
    (start s).1.corners = s.corners ∧
    (start s).1.edges = s.edges ∧
    (start s).1.math_ans = s.math_ans ∧
    (start s).1.last_edge_hits = s.last_edge_hits ∧
    (start s).1.level = 1 ∧
    (start s).1.corner_len = 3 ∧
    (start s).1.edge_len = 5 ∧
    (start s).2.1 = ConvState.END ∧
    (start s).2.2 = welcome_text := by
  simp [start]

/-- C2 counterexample: the exit handler on a mid-round session keeps all
pending round data (`corners`, `edges`, `math_ans`, `last_edge_hits`)
instead of discarding it. -/
theorem C2_counterexample :
    (exit_handler sessionEx).1.corners ≠ none ∧
    (exit_handler sessionEx).1.edges ≠ none ∧
    (exit_handler sessionEx).1.math_ans ≠ none ∧
    (exit_handler sessionEx).1.last_edge_hits ≠ none := by decide

/-- C2 amended: the exit handler emits the goodbye message and returns the
conversation-end value while leaving the session entirely unchanged: the
lifetime counters are untouched (no partial credit), but the pending round
data is retained rather than discarded. -/
theorem C2_amended (s : Session) :
    (exit_handler s).1 = s ∧
    (exit_handler s).2.1 = ConvState.END ∧
    (exit_handler s).2.2 = goodbye_text :=
  ⟨rfl, rfl, rfl⟩

/-- C9: malformed input is handled in place — a non-integer math answer
re-prompts and stays in `WAIT_MATH`, and a wrong-length recall string (for
edges or for corners) re-prompts and stays in the same recall state; in
every case the session value, hence every counter and every pending round
field, is returned unchanged. -/
theorem C9_theorem :
    (∀ (s : Session) (text : String), pyInt text = none →
      handle_math text s =
        some (s, ConvState.WAIT_MATH, "❌ Send a valid number.")) ∧
    (∀ (s : Session) (es : List Char) (text : String), s.edges = some es →
      (pyGuess text).length ≠ es.length →
      handle_edges text s =
        some (s, ConvState.WAIT_RECALL_EDGES,
          "Need " ++ toString es.length ++ " letters for edges.")) ∧
    (∀ (s : Session) (cs : List Char) (d1 d2 : Nat) (text : String),
      s.corners = some cs →
      (pyGuess text).length ≠ cs.length →
      handle_corners d1 d2 text s =
        some (s, ConvState.WAIT_RECALL_CORNERS,
          "Need " ++ toString cs.length ++ " letters for corners.")) := by
  refine ⟨?_, ?_, ?_⟩
  · intro s text h
    simp [handle_math, h]
  · intro s es text hes hlen
    simp only [handle_edges, hes]
    rw [if_pos hlen]
  · intro s cs d1 d2 text hcs hlen
    simp only [handle_corners, hcs]
    rw [if_pos hlen]

/-- C9 witness: the spec's `"69b2"` math answer and wrong-length recall
strings on the mid-round fixture session. -/
theorem C9_witness :
    handle_math "69b2" sessionEx =
      some (sessionEx, ConvState.WAIT_MATH, "❌ Send a valid number.") ∧
    handle_edges "IJK" sessionEx =
      some (sessionEx, ConvState.WAIT_RECALL_EDGES,
        "Need " ++ toString ('I' :: 'J' :: []).length ++ " letters for edges.") ∧
    handle_corners 0 0 "DEF" sessionEx =
      some (sessionEx, ConvState.WAIT_RECALL_CORNERS,
        "Need " ++ toString ('D' :: 'E' :: []).length ++ " letters for corners.") :=
  ⟨C9_theorem.1 sessionEx "69b2" (by decide),
    C9_theorem.2.1 sessionEx ('I' :: 'J' :: []) "IJK" (by decide) (by decide),
    C9_theorem.2.2 sessionEx ('D' :: 'E' :: []) 0 0 "DEF" (by decide) (by decide)⟩

/-- C5: a completed round (a corners guess of the right length, with
`corners` and `edges` present) increments `puzzles_solved` by exactly 1
when the corners score is perfect and the recorded edges score equals the
full edges length, and by 0 otherwise. -/
theorem C5_theorem (s : Session) (cs es : List Char) (d1 d2 : Nat)
    (text : String) (r : Session × ConvState × String)
    (hcs : s.corners = some cs) (hes : s.edges = some es)
    (hlen : (pyGuess text).length = cs.length)
    (hrun : handle_corners d1 d2 text s = some r) :
    r.1.puzzles_solved = s.puzzles_solved +
      (if (format_feedback cs (pyGuess text)).2 = cs.length ∧
          s.last_edge_hits.getD 0 = es.length
        then 1 else 0) := by
  have hnlen : ¬ (pyGuess text).length ≠ cs.length := by
    simpa using hlen
  simp only [handle_corners, hcs, hes] at hrun
  rw [if_neg hnlen] at hrun
  by_cases hperf : (format_feedback cs (pyGuess text)).2 = cs.length
  · rw [if_pos hperf] at hrun
    by_cases hedge : s.last_edge_hits.getD 0 = es.length
    · rw [if_pos hedge] at hrun
      simp only at hrun
      split at hrun
      · exact absurd hrun (by simp)
      · simp only [Option.some.injEq] at hrun
        subst hrun
        simp [hperf, hedge]
    · rw [if_neg hedge] at hrun
      simp only at hrun
      split at hrun
      · exact absurd hrun (by simp)
      · simp only [Option.some.injEq] at hrun
        subst hrun
        simp [hedge]
  · rw [if_neg hperf] at hrun
    simp only at hrun
    split at hrun
    · exact absurd hrun (by simp)
    · simp only [Option.some.injEq] at hrun
      subst hrun
      simp [hperf]

/-- C5 witness: a perfect corners recall combined with an imperfect
recorded edges recall leaves `puzzles_solved` unchanged. -/
theorem C5_witness :
    (solveSession.corners = some ('A' :: 'B' :: 'C' :: []) ∧
      solveSession.edges = some ('I' :: 'J' :: 'K' :: 'L' :: 'M' :: []) ∧
      (pyGuess "abc").length = ('A' :: 'B' :: 'C' :: []).length) ∧
    cornersRoundResult.1.puzzles_solved = solveSession.puzzles_solved +
      (if (format_feedback ('A' :: 'B' :: 'C' :: [])
              (pyGuess "abc")).2 = ('A' :: 'B' :: 'C' :: []).length ∧
          solveSession.last_edge_hits.getD 0 =
            ('I' :: 'J' :: 'K' :: 'L' :: 'M' :: []).length
        then 1 else 0) :=
  ⟨⟨rfl, rfl, by decide⟩,
    C5_theorem solveSession ('A' :: 'B' :: 'C' :: [])
      ('I' :: 'J' :: 'K' :: 'L' :: 'M' :: []) 0 0 "abc" cornersRoundResult
      rfl rfl (by decide) (by decide)⟩

theorem genStep_spec (letters memo : List Char) (d : Draw) (hne : letters ≠ []) :
    genStep letters memo d = memo ∨
    ∃ L, L ∈ letters ∧ (memo ≠ [] → L ≠ memo.headD ' ') ∧
      genStep letters memo d = memo ++ [L] := by
  have hidx : d.idx % letters.length < letters.length :=
    Nat.mod_lt _ (List.length_pos.mpr hne)
  have hmemL : letters.getD (d.idx % letters.length) ' ' ∈ letters := by
    rw [List.getD_eq_getElem _ _ hidx]
    exact List.getElem_mem hidx
  by_cases h1 : memo ≠ [] ∧
      (letters.getD (d.idx % letters.length) ' ' = memo.headD ' ' ∨
        letters.getD (d.idx % letters.length) ' ' = memo.getLastD ' ')
  · left
    simp only [genStep]
    rw [if_pos h1]
  · by_cases h2 : letters.getD (d.idx % letters.length) ' ' ∈ memo ∧
        d.dup > DUP_CHANCE
    · left
      simp only [genStep]
      rw [if_neg h1, if_pos h2]
    · right
      refine ⟨letters.getD (d.idx % letters.length) ' ', hmemL, ?_, ?_⟩
      · intro hm hLh
        exact h1 ⟨hm, Or.inl hLh⟩
      · simp only [genStep]
        rw [if_neg h1, if_neg h2]

theorem gen_invariant (letters : List Char) (n : Nat) (hne : letters ≠ []) :
    ∀ (ds : List Draw) (memo s : List Char),
      memo.length ≤ n →
      (∀ x ∈ memo, x ∈ letters) →
      (2 ≤ memo.length → memo.headD ' ' ≠ memo.getLastD ' ') →
      gen_memo_set letters n ds memo = some s →
      s.length = n ∧ (∀ x ∈ s, x ∈ letters) ∧
        (2 ≤ s.length → s.headD ' ' ≠ s.getLastD ' ') := by
  intro ds
  induction ds with
  | nil =>
    intro memo s hlen hmem hhl hrun
    simp only [gen_memo_set] at hrun
    split at hrun
    · exact absurd hrun (by simp)
    · simp only [Option.some.injEq] at hrun
      subst hrun
      next hge => exact ⟨le_antisymm hlen (not_lt.mp hge), hmem, hhl⟩
  | cons d rest ih =>
    intro memo s hlen hmem hhl hrun
    simp only [gen_memo_set] at hrun
    split at hrun
    · next hlt =>
      rcases genStep_spec letters memo d hne with heq | ⟨L, hLmem, hLhead, heq⟩
      · rw [heq] at hrun
        exact ih memo s hlen hmem hhl hrun
      · rw [heq] at hrun
        refine ih (memo ++ [L]) s ?_ ?_ ?_ hrun
        · simpa using hlt
        · intro x hx
          rcases List.mem_append.mp hx with h | h
          · exact hmem x h
          · rw [List.mem_singleton.mp h]
            exact hLmem
        · intro h2
          have hmne : memo ≠ [] := by
            rintro rfl
            simp at h2
          obtain ⟨a, memo', rfl⟩ := List.exists_cons_of_ne_nil hmne
          rw [List.getLastD_concat, List.cons_append, List.headD_cons]
          intro hcontra
          exact hLhead hmne hcontra.symm
    · simp only [Option.some.injEq] at hrun
      subst hrun
      next hge => exact ⟨le_antisymm hlen (not_lt.mp hge), hmem, hhl⟩

/-- C6: every sequence the generator returns has exactly `length` letters,
all of them members of the alphabet, and when `length ≥ 2` its last letter
differs from its first letter (the wrap-adjacency guard). -/
theorem C6_theorem (letters : List Char) (n : Nat) (ds : List Draw)
    (s : List Char) (hne : letters ≠ [])
    (hrun : gen_memo_set letters n ds [] = some s) :
    s.length = n ∧ (∀ x ∈ s, x ∈ letters) ∧
      (2 ≤ n → s.headD ' ' ≠ s.getLastD ' ') := by
  have h := gen_invariant letters n hne ds [] s (by simp) (by simp) (by simp)
    hrun
  exact ⟨h.1, h.2.1, fun h2 => h.2.2 (h.1 ▸ h2)⟩

/-- C6 witness: a concrete three-draw run over the corner alphabet. -/
theorem C6_witness :
    (CORNER_LETTERS ≠ []) ∧
    ((['A', 'B', 'C'] : List Char).length = 3 ∧
      (∀ x ∈ (['A', 'B', 'C'] : List Char), x ∈ CORNER_LETTERS) ∧
      (2 ≤ 3 → (['A', 'B', 'C'] : List Char).headD ' ' ≠
        (['A', 'B', 'C'] : List Char).getLastD ' ')) :=
  ⟨by decide,
    C6_theorem CORNER_LETTERS 3 [⟨0, 0⟩, ⟨1, 0⟩, ⟨2, 0⟩] ['A', 'B', 'C']
      (by decide) (by decide)⟩

theorem badStream_stuck (k : Nat) :
    gen_memo_set ['A', 'B'] 2
      (List.replicate k (⟨0, mkRat 1 2⟩ : Draw)) ['A'] = none := by
  induction k with
  | zero => rfl
  | succ k ih =>
    have hstep : genStep ['A', 'B'] ['A'] ⟨0, mkRat 1 2⟩ = ['A'] := by decide
    rw [List.replicate_succ]
    simp only [gen_memo_set]
    rw [if_pos (by decide : (['A'] : List Char).length < 2), hstep]
    exact ih

/-- C3 counterexample: the two-letter alphabet `[A, B]` satisfies the
claim's precondition, yet on the draw stream that always picks index 0 the
accept/reject loop for length 2 never accepts a second letter — after `A`
is accepted every further draw of `A` hits the adjacency guard — so the
generator does not terminate for every permitted sequence of draws. -/
theorem C3_counterexample :
    2 ≤ (['A', 'B'] : List Char).length ∧ 1 ≤ 2 ∧
    ¬ genTerminates ['A', 'B'] 2 badStream := by
  refine ⟨by decide, by decide, ?_⟩
  rintro ⟨k, s, hs⟩
  rw [show badStream = fun _ => (⟨0, mkRat 1 2⟩ : Draw) from rfl,
    List.map_const', List.length_range] at hs
  cases k with
  | zero =>
    simp only [List.replicate_zero, gen_memo_set] at hs
    rw [if_pos (by decide : ([] : List Char).length < 2)] at hs
    exact absurd hs (by simp)
  | succ k =>
    rw [List.replicate_succ] at hs
    simp only [gen_memo_set] at hs
    rw [if_pos (by decide : ([] : List Char).length < 2),
      (by decide : genStep ['A', 'B'] [] ⟨0, mkRat 1 2⟩ = ['A']),
      badStream_stuck k] at hs
    exact absurd hs (by simp)

theorem exists_avoid (letters : List Char) (hnd : letters.Nodup)
    (h3 : 3 ≤ letters.length) (x y : Char) :
    ∃ L ∈ letters, L ≠ x ∧ L ≠ y := by
  obtain ⟨a, b, c, rest, rfl⟩ :
      ∃ a b c rest, letters = a :: b :: c :: rest := by
    match letters, h3 with
    | a :: b :: c :: rest, _ => exact ⟨a, b, c, rest, rfl⟩
  simp only [List.nodup_cons, List.mem_cons, not_or] at hnd
  obtain ⟨⟨hab, hac, -⟩, ⟨hbc, -⟩, -⟩ := hnd
  by_cases ha : a ≠ x ∧ a ≠ y
  · exact ⟨a, by simp, ha⟩
  by_cases hb : b ≠ x ∧ b ≠ y
  · exact ⟨b, by simp, hb⟩
  rw [not_and_or, not_not, not_not] at ha hb
  refine ⟨c, by simp, ?_, ?_⟩
  · rintro rfl
    rcases ha with rfl | rfl
    · exact hac rfl
    · rcases hb with rfl | rfl
      · exact hbc rfl
      · exact hab rfl
  · rintro rfl
    rcases ha with rfl | rfl
    · rcases hb with rfl | rfl
      · exact hab rfl
      · exact hbc rfl
    · exact hac rfl

theorem genStep_progress (letters : List Char) (hnd : letters.Nodup)
    (h3 : 3 ≤ letters.length) (memo : List Char) :
    ∃ d : Draw, genStep letters memo d =
      memo ++ [letters.getD (d.idx % letters.length) ' '] := by
  obtain ⟨L, hLmem, hLx, hLy⟩ :=
    exists_avoid letters hnd h3 (memo.headD ' ') (memo.getLastD ' ')
  have hidx : letters.indexOf L < letters.length :=
    List.indexOf_lt_length.mpr hLmem
  refine ⟨⟨letters.indexOf L, 0⟩, ?_⟩
  have hgetD :
      letters.getD (letters.indexOf L % letters.length) ' ' = L := by
    rw [Nat.mod_eq_of_lt hidx, List.getD_eq_getElem _ _ hidx]
    exact List.getElem_indexOf hidx
  have hc1 : ¬ (memo ≠ [] ∧
      (letters.getD (letters.indexOf L % letters.length) ' ' =
          memo.headD ' ' ∨
        letters.getD (letters.indexOf L % letters.length) ' ' =
          memo.getLastD ' ')) := by
    rw [hgetD]
    rintro ⟨-, h | h⟩
    · exact hLx h
    · exact hLy h
  have hc2 : ¬ (letters.getD (letters.indexOf L % letters.length) ' ' ∈
        memo ∧ (⟨letters.indexOf L, 0⟩ : Draw).dup > DUP_CHANCE) := by
    rintro ⟨-, h⟩
    have h0 : (0 : ℚ) > DUP_CHANCE := h
    exact absurd h0 (by decide)
  simp only [genStep]
  rw [if_neg hc1, if_neg hc2]

/-- C3 amended: with at least three distinct letters the loop can always
make progress, so for every requested length some finite sequence of draws
makes the generator accept `length` letters; termination for every
sequence of draws fails (see the counterexample). -/
theorem C3_amended (letters : List Char) (n : Nat) (hnd : letters.Nodup)
    (h3 : 3 ≤ letters.length) :
    ∃ ds s, gen_memo_set letters n ds [] = some s := by
  have key : ∀ (k : Nat) (memo : List Char), n ≤ memo.length + k →
      ∃ ds s, gen_memo_set letters n ds memo = some s := by
    intro k
    induction k with
    | zero =>
      intro memo hk
      refine ⟨[], memo, ?_⟩
      simp only [gen_memo_set]
      rw [if_neg (by omega)]
    | succ k ih =>
      intro memo hk
      by_cases hlt : memo.length < n
      · obtain ⟨d, hd⟩ := genStep_progress letters hnd h3 memo
        obtain ⟨ds, s, hs⟩ := ih (genStep letters memo d) (by rw [hd]; simp; omega)
        refine ⟨d :: ds, s, ?_⟩
        simp only [gen_memo_set]
        rw [if_pos hlt, hs]
      · refine ⟨[], memo, ?_⟩
        simp only [gen_memo_set]
        rw [if_neg hlt]
  exact key n [] (by simp)

/-- C3 witness: for the corner alphabet, which has eight distinct letters,
some finite sequence of draws yields a complete length-3 sequence. -/
theorem C3_witness :
    ∃ ds s, gen_memo_set CORNER_LETTERS 3 ds [] = some s :=
  C3_amended CORNER_LETTERS 3 (by decide) (by decide)

end BlindTrainer
